import Mathlib

/-!
Shallow embedding of `src/inference.py` from the Deep-Learning-Exercise-Recognizer
repository, together with theorems settling the specification claims.

Conventions of the embedding:
* Machine floating-point arithmetic is embedded as exact rational arithmetic (`ℚ`).
* A raw decoded image (numpy `HxWx3` `uint8` array) is a total function
  `ℕ → ℕ → Fin 3 → ℕ` together with separate height/width data; pixel values are
  bounded by 256 as a hypothesis where needed.
* A channel-first image tensor of shape `3×H×W` is `Fin 3 → ℕ → ℕ → ℚ`.
  A batch-dim-1 tensor of shape `1×3×H×W` is represented by its single batch
  slice; where the Python code iterates over the leading dimension (the `zip`
  inside `denormalize`) the tensor is materialised as the singleton list of its
  dim-0 slices, exactly mirroring Python iteration over a torch tensor.
* External library primitives (torchvision transforms, `cv2.putText`,
  `cv2.cvtColor`, numpy `argmax`, `F.softmax`) are modelled from the spec's
  description of them, as noted in their doc comments; everything else is
  translated directly from `inference.py`.
-/

set_option autoImplicit false

namespace ExerciseRecognizer

/-- The per-channel normalization means of `inference.py` (the list literal that
appears both in `transforms.Normalize` and as the default `mean` of `denormalize`). -/
def meanL : List ℚ := [0.485, 0.456, 0.406]

/-- The per-channel normalization standard deviations of `inference.py`. -/
def stdL : List ℚ := [0.229, 0.224, 0.225]

/-- The means as a channel-indexed vector (the form in which
`transforms.Normalize` consumes them). -/
def meanV : Fin 3 → ℚ := ![0.485, 0.456, 0.406]

/-- The standard deviations as a channel-indexed vector. -/
def stdV : Fin 3 → ℚ := ![0.229, 0.224, 0.225]

/-- Constant `IMAGE_RESIZE = 256`, the resize dimension the driver passes to
`get_test_transform`. -/
def IMAGE_RESIZE : ℕ := 256

/-- Scalar `torch.clamp(·, 0, 1)`. -/
def clampQ (v : ℚ) : ℚ := min (max v 0) 1

/-- A raw decoded image: height × width × 3 channels of `uint8` intensities,
indexed as a total function (the driver reads such arrays via `cv2.imread`). -/
abbrev RawImg := ℕ → ℕ → Fin 3 → ℕ

/-- A channel-first `3×H×W` floating-point tensor. -/
abbrev Chan3 := Fin 3 → ℕ → ℕ → ℚ

/-- A height-width-channel floating-point pixel array (the layout
`annotate_image` hands to OpenCV). -/
abbrev ImgHWC := ℕ → ℕ → Fin 3 → ℚ

/-- Modelled from the spec: `transforms.Resize((image_size, image_size))` —
"exact resize, not aspect-preserving" of an `h×w` source to `s×s`.  The output
geometry is what the spec fixes; the interpolation is modelled as
nearest-neighbour sampling of the source grid. -/
def resizeImg (h w s : ℕ) (img : RawImg) : RawImg :=
  fun i j c => img (i * h / s) (j * w / s) c

/-- Modelled from the spec: `transforms.CenterCrop(crop)` on an `s×s` image —
"extracting the centered sub-region of fixed size", i.e. reading the source at
offset `(s - crop) / 2` in both spatial coordinates. -/
def centerCrop (s crop : ℕ) (img : RawImg) : RawImg :=
  fun i j c => img ((s - crop) / 2 + i) ((s - crop) / 2 + j) c

/-- Modelled from the spec: `transforms.ToTensor()` — "convert to
floating-point tensor, scaled to [0,1]", reordering height-width-channel to
channel-first and dividing the `uint8` intensities by 255. -/
def toTensor (img : RawImg) : Chan3 :=
  fun c i j => (img i j c : ℚ) / 255

/-- Transform `transforms.Normalize(mean, std)`: per-channel `(value - mean[c]) / std[c]`. -/
def tNormalize (mean std : Fin 3 → ℚ) (t : Chan3) : Chan3 :=
  fun c i j => (t c i j - mean c) / std c

/-- Function `get_test_transform(image_size)` from `inference.py`: the composition
`ToPILImage → Resize((image_size, image_size)) → CenterCrop(224) → ToTensor →
Normalize(mean, std)` applied to an `h×w` raw image (`ToPILImage` is a pure
representation change and is the identity on pixel content).  The output is a
tensor of shape `3×224×224`, expressed by the `Fin`-typed index domain. -/
def get_test_transform (image_size h w : ℕ) (img : RawImg) :
    Fin 3 → Fin 224 → Fin 224 → ℚ :=
  fun c i j =>
    tNormalize meanV stdV
      (toTensor (centerCrop image_size 224 (resizeImg h w image_size img)))
      c (i : ℕ) (j : ℕ)

/-- Function `denormalize(x, mean, std)` from `inference.py`, generic in the type `α` of
the slices of `x` along dimension 0 (Python iterates a torch tensor over its
leading dimension).  `for t, m, s in zip(x, mean, std): t.mul_(s).add_(m)`
mutates the first `min`-many slices in place (`scaleShift s m t` embeds
`t.mul_(s).add_(m)`), leaves the remaining slices untouched, and
`torch.clamp(x, 0, 1)` (`clampT`) is then applied to the whole tensor. -/
def denormalize {α : Type} (scaleShift : ℚ → ℚ → α → α) (clampT : α → α)
    (x : List α) (mean : List ℚ := meanL) (std : List ℚ := stdL) : List α :=
  let zipped := x.zip (mean.zip std)
  ((zipped.map fun p => scaleShift p.2.2 p.2.1 p.1) ++ x.drop zipped.length).map
    clampT

/-- Operation `t.mul_(s).add_(m)` where `t` is a `3×H×W` slice (the batch-dimension slice
that `denormalize` receives when called from `annotate_image`). -/
def scaleShift3 (s m : ℚ) (t : Chan3) : Chan3 :=
  fun c i j => t c i j * s + m

/-- Pointwise `torch.clamp(·, 0, 1)` on a `3×H×W` slice. -/
def clamp3 (t : Chan3) : Chan3 :=
  fun c i j => clampQ (t c i j)

/-- Operation `t.mul_(s).add_(m)` where `t` is an `H×W` channel (the slices `denormalize`
receives when handed a channel-first `3×H×W` tensor directly). -/
def scaleShift2 (s m : ℚ) (t : ℕ → ℕ → ℚ) : ℕ → ℕ → ℚ :=
  fun i j => t i j * s + m

/-- Pointwise `torch.clamp(·, 0, 1)` on an `H×W` channel. -/
def clamp2 (t : ℕ → ℕ → ℚ) : ℕ → ℕ → ℚ :=
  fun i j => clampQ (t i j)

/-- The dim-0 slices of a `3×H×W` tensor, in iteration order: materialises how
Python iterates a channel-first tensor (channel 0, 1, 2). -/
def chanListOf (t : Chan3) : List (ℕ → ℕ → ℚ) :=
  [fun i j => t 0 i j, fun i j => t 1 i j, fun i j => t 2 i j]

/-- Python list indexing `l[i]` for an `int` index: indices in `[0, len)` read
directly, indices in `[-len, 0)` read from the end, anything else raises
`IndexError`. -/
def pyGetItem {α : Type} (l : List α) (i : ℤ) : Except String α :=
  if h : 0 ≤ i ∧ i < (l.length : ℤ) then
    Except.ok (l.get ⟨i.toNat, by omega⟩)
  else if h2 : -(l.length : ℤ) ≤ i ∧ i < 0 then
    Except.ok (l.get ⟨(i + l.length).toNat, by omega⟩)
  else
    Except.error "IndexError: list index out of range"

/-- Modelled from the spec: `cv2.cvtColor(·, cv2.COLOR_RGB2BGR)` — "convert
channel order from RGB to BGR", i.e. swap channels 0 and 2. -/
def rgb2bgr (img : ImgHWC) : ImgHWC :=
  fun i j c => img i j ⟨2 - (c : ℕ), by omega⟩

/-- The draw colour of `cv2.putText` in `annotate_image`: `(0, 0, 255)` (pure
red in BGR). -/
def textColor : Fin 3 → ℚ := ![0, 0, 255]

/-- Modelled from the spec: `cv2.putText(image, class_name, (5, 25),
FONT_HERSHEY_SIMPLEX, 0.7, (0, 0, 255), 2, LINE_AA)` — "draw the class name as
text …, anti-aliased".  Anti-aliased glyph rendering is modelled as per-pixel
alpha blending of the draw colour over the image, with `mask i j ∈ [0, 1]` the
glyph coverage of pixel `(i, j)` (1 on fully covered text pixels, 0 off the
text).  The colour components are written as-is, exactly as OpenCV does on a
floating-point image. -/
def putText (mask : ℕ → ℕ → ℚ) (img : ImgHWC) : ImgHWC :=
  fun i j c => (1 - mask i j) * img i j c + mask i j * textColor c

/-- Function `annotate_image(image, output_class)` from `inference.py`.  `imageB` is the
single batch slice of the batch-dim-1 `1×3×H×W` input tensor, so the tensor's
dim-0 slice list is `[imageB]` — which is what `denormalize` iterates over.
`.squeeze(0)` then drops the singleton batch dimension, `.permute((1, 2, 0))`
reorders to height-width-channel (`.cpu()`, `.numpy()` and
`np.ascontiguousarray` are pure representation changes), `cv2.cvtColor` swaps
RGB to BGR, `CLASS_NAMES[int(output_class)]` is a Python list indexing that may
raise `IndexError`, and `cv2.putText` draws the class name (`mask` is its glyph
coverage, from the external font rasterizer).  Returns the annotated pixel
array. -/
def annotate_image (table : List String) (mask : ℕ → ℕ → ℚ) (imageB : Chan3)
    (output_class : ℤ) : Except String ImgHWC := do
  let den : Chan3 := (denormalize scaleShift3 clamp3 [imageB]).headD
    (fun _ _ _ => 0)
  let hwc : ImgHWC := fun i j c => den c i j
  let bgrImg : ImgHWC := rgb2bgr hwc
  let _class_name ← pyGetItem table output_class
  pure (putText mask bgrImg)

/-- Modelled from the spec: `np.argmax` on an empty-or-not list of scores —
"index of the largest value in a sequence", with numpy's tie-breaking: the
FIRST index attaining the maximum.  `argmaxAux rest i bi bv` scans `rest`
starting at position `i`, with current best index `bi` and best value `bv`. -/
def argmaxAux : List ℚ → ℕ → ℕ → ℚ → ℕ
  | [], _, bi, _ => bi
  | v :: rest, i, bi, bv =>
    if bv < v then argmaxAux rest (i + 1) i v else argmaxAux rest (i + 1) bi bv

/-- Function `np.argmax` over a list of scores (first index of the maximum; 0 on the
empty list, which numpy instead rejects — all uses below are on nonempty data). -/
def npArgmaxList : List ℚ → ℕ
  | [] => 0
  | v :: rest => argmaxAux rest 1 0 v

/-- Row-major flattening of a `1×n` array, as `np.argmax` sees a matrix
(numpy flattens before taking the arg-max when no axis is given). -/
def flattenRows {n : ℕ} (p : Fin 1 → Fin n → ℚ) : List ℚ :=
  (List.finRange 1).foldr (fun b acc => ((List.finRange n).map (p b)) ++ acc) []

/-- Call `np.argmax(predictions)` for a `1×n` matrix: arg-max over the flattened
array. -/
def npArgmaxFlat {n : ℕ} (p : Fin 1 → Fin n → ℚ) : ℕ :=
  npArgmaxList (flattenRows p)

/-- Arg-max along the class dimension (dim 1) of a `1×n` matrix: the arg-max of
its single row. -/
def argmaxDim1 {n : ℕ} (p : Fin 1 → Fin n → ℚ) : ℕ :=
  npArgmaxList ((List.finRange n).map (p 0))

/-- Modelled from the spec: `F.softmax(outputs, dim=1)` — "normalization
turning raw per-class scores into a probability distribution summing to 1",
`softmax(v)_i = exp(v_i) / Σ_j exp(v_j)` along dimension 1 of the `1×n` score
matrix.  The exponential is abstracted as a parameter `e : ℚ → ℚ`; the theorems
below assume of `e` only what the real exponential satisfies (strict
monotonicity and positivity on the values at hand). -/
def softmax1 {n : ℕ} (e : ℚ → ℚ) (p : Fin 1 → Fin n → ℚ) : Fin 1 → Fin n → ℚ :=
  fun b i => e (p b i) / ∑ j, e (p b j)

/-- Function `inference(model, testloader, DEVICE)` from `inference.py`.  Lines `model.eval()`,
the `torch.no_grad()` scope, `.to(DEVICE)`, `.cpu()` and `.numpy()` are
behaviour-preserving on the computed values and vanish in the embedding.  The
forward pass `model(image)` is the abstract `model` function (weights are
external), `F.softmax(outputs, dim=1)` is `softmax1 e`, `np.argmax(predictions)`
is the flattened arg-max, and the result delegates to `annotate_image` with the
original (pre-softmax) input `image`. -/
def inference {n : ℕ} (table : List String) (mask : ℕ → ℕ → ℚ) (e : ℚ → ℚ)
    (model : Chan3 → Fin 1 → Fin n → ℚ) (image : Chan3) :
    Except String ImgHWC :=
  let outputs := model image
  let predictions := softmax1 e outputs
  let output_class := npArgmaxFlat predictions
  annotate_image table mask image (output_class : ℤ)

/-- Expression `image_path.split(os.path.sep)[-1]`: the basename of a path. -/
def basenameOf (p : String) : String :=
  (p.splitOn "/").getLastD p

/-- Whether a file name matches the pattern `*.jpg` (its characters end with
".jpg"). -/
def matchesJpg (f : String) : Bool :=
  ".jpg".data.isSuffixOf f.data

/-- Modelled from the spec: `glob.glob(os.path.join(input, STAR.jpg))` — "the
files matching `*.jpg` directly inside the input directory" (non-recursive,
enumeration order preserved). -/
def globJpg (files : List String) : List String :=
  files.filter matchesJpg

/-- The externally observable effects of one driver run (`__main__` of
`inference.py`): whether the output directory was created, how many times
`inference` ran, and which output filenames were written. -/
structure DriverRun where
  outputDirCreated : Bool
  inferenceCalls : ℕ
  writtenFiles : List String
deriving DecidableEq, Repr

/-- The driver loop of `inference.py` over the file names found in the input
directory: `os.makedirs(..., exist_ok=True)` runs first (checkpoint loading and
model construction are external and touch no files of interest), then for each
globbed `*.jpg` path, in order, one `inference` call runs and one output file
with the input's basename is written. -/
def runDriver (files : List String) : DriverRun :=
  let st0 : DriverRun :=
    { outputDirCreated := true, inferenceCalls := 0, writtenFiles := [] }
  (globJpg files).foldl
    (fun st p =>
      { st with
        inferenceCalls := st.inferenceCalls + 1
        writtenFiles := st.writtenFiles ++ [basenameOf p] })
    st0

/-- The predicted class id computed by the inference path for one image (the
value `np.argmax(F.softmax(model(image), dim=1))` that `inference` passes to
`annotate_image`). -/
def predicted_class {n : ℕ} (e : ℚ → ℚ) (model : Chan3 → Fin 1 → Fin n → ℚ)
    (image : Chan3) : ℕ :=
  npArgmaxFlat (softmax1 e (model image))

/-- The all-zero normalized image slice, used as a concrete test input. -/
def zeroChan : Chan3 := fun _ _ _ => 0

/-- The constant-`1/2` image tensor, a concrete test input with values in
`[0, 1]`. -/
def halfT : Chan3 := fun _ _ _ => 1 / 2

/-- A concrete glyph-coverage mask: one fully covered pixel at `(20, 10)`
(inside a 224×224 image, as the text drawn at `(5, 25)` produces). -/
def maskDot : ℕ → ℕ → ℚ := fun i j => if i = 20 ∧ j = 10 then 1 else 0

/-- The concrete pixel array produced by `annotate_image` on the zero image
with a one-pixel text mask and class id 0 over a one-entry class table. -/
def annotExample : ImgHWC :=
  (annotate_image ["x"] maskDot zeroChan 0).toOption.getD (fun _ _ _ => 0)

/-- A concrete `1×3` score matrix for exercising the arg-max path. -/
def scoresW : Fin 1 → Fin 3 → ℚ := fun _ j => (![1, 5, 2] : Fin 3 → ℚ) j

/-- A concrete strictly monotone positive stand-in for the exponential on the
test scores. -/
def expW : ℚ → ℚ := fun x => x + 10

/-- A concrete constant model producing `scoresW` on every input. -/
def modelW : Chan3 → Fin 1 → Fin 3 → ℚ := fun _ => scoresW

/-! ## Helper lemmas -/

theorem clampQ_nonneg (v : ℚ) : 0 ≤ clampQ v :=
  le_min (le_max_right v 0) (by norm_num)

theorem clampQ_le_one (v : ℚ) : clampQ v ≤ 1 :=
  min_le_right _ _

theorem clampQ_eq_self {v : ℚ} (h0 : 0 ≤ v) (h1 : v ≤ 1) : clampQ v = v := by
  unfold clampQ
  rw [max_eq_left h0, min_eq_left h1]

/-- On the batch-dim-1 call from `annotate_image`, Python's `zip` pairs the
single batch slice with `mean[0]` and `std[0]`, so the whole slice is
transformed by those two constants. -/
theorem denorm_batch1_eq (imageB : Chan3) :
    (denormalize scaleShift3 clamp3 [imageB]).headD (fun _ _ _ => 0) =
      clamp3 (scaleShift3 (stdL.getD 0 0) (meanL.getD 0 0) imageB) := rfl

/-- Rewriting `annotate_image` as an `Except.map` over the class-name lookup. -/
theorem annotate_image_eq (table : List String) (mask : ℕ → ℕ → ℚ)
    (imageB : Chan3) (c : ℤ) :
    annotate_image table mask imageB c =
      (pyGetItem table c).map (fun _ =>
        putText mask (rgb2bgr (fun i j ch =>
          (denormalize scaleShift3 clamp3 [imageB]).headD (fun _ _ _ => 0)
            ch i j))) := by
  unfold annotate_image
  cases pyGetItem table c <;> rfl

/-- Lookup `pyGetItem` raises exactly on the indices Python rejects. -/
theorem pyGetItem_error_iff {α : Type} (l : List α) (i : ℤ) :
    (∃ m, pyGetItem l i = Except.error m) ↔
      (i < -(l.length : ℤ) ∨ (l.length : ℤ) ≤ i) := by
  unfold pyGetItem
  split_ifs with h1 h2
  · constructor
    · rintro ⟨m, hm⟩; cases hm
    · intro hc; omega
  · constructor
    · rintro ⟨m, hm⟩; cases hm
    · intro hc; omega
  · exact ⟨fun _ => by omega, fun _ => ⟨_, rfl⟩⟩

/-- The draw colour's components lie in `[0, 255]`. -/
theorem textColor_bounds (ch : Fin 3) : 0 ≤ textColor ch ∧ textColor ch ≤ 255 := by
  fin_cases ch <;> norm_num [textColor]

/-- Bounds of one blended pixel of `putText`: always within `[0, 255]`, and
within `[0, 1]` wherever the glyph coverage is zero. -/
theorem putText_bounds (mask : ℕ → ℕ → ℚ) (img : ImgHWC) (i j : ℕ) (ch : Fin 3)
    (hm : 0 ≤ mask i j ∧ mask i j ≤ 1)
    (hv : 0 ≤ img i j ch ∧ img i j ch ≤ 1) :
    (0 ≤ putText mask img i j ch ∧ putText mask img i j ch ≤ 255) ∧
      (mask i j = 0 → putText mask img i j ch ≤ 1) := by
  have htc := textColor_bounds ch
  unfold putText
  refine ⟨⟨?_, ?_⟩, ?_⟩
  · have h1 : 0 ≤ (1 - mask i j) * img i j ch :=
      mul_nonneg (by linarith [hm.2]) hv.1
    have h2 : 0 ≤ mask i j * textColor ch := mul_nonneg hm.1 htc.1
    linarith
  · nlinarith [hv.1, hv.2, htc.1, htc.2, hm.1, hm.2]
  · intro hz
    rw [hz]
    simpa using hv.2

/-- The image handed to `cv2.putText` inside `annotate_image` (denormalized,
channel-swapped) has all its values clamped into `[0, 1]`. -/
theorem rgb2bgr_clamp_bounds (t : Chan3) (i j : ℕ) (ch : Fin 3) :
    0 ≤ rgb2bgr (fun i j c => clamp3 t c i j) i j ch ∧
      rgb2bgr (fun i j c => clamp3 t c i j) i j ch ≤ 1 := by
  unfold rgb2bgr clamp3
  exact ⟨clampQ_nonneg _, clampQ_le_one _⟩

/-! ## Claim theorems -/

/-- C1, counterexample: on the zero image with a one-entry class table, class
id 0 and a text mask fully covering pixel `(20, 10)`, `annotate_image` succeeds
and the returned pixel array holds the value 255 at that pixel's red (BGR
channel 2) component — `cv2.putText` writes the draw colour `(0, 0, 255)` onto
the `[0, 1]`-range float image, so the returned values do NOT all lie in
`[0, 1]`. -/
theorem annotate_putText_exceeds_unit_range :
    ∃ r, annotate_image ["x"] maskDot zeroChan 0 = Except.ok r ∧
      r 20 10 2 = 255 ∧ ¬ r 20 10 2 ≤ 1 := by
  refine ⟨_, rfl, ?_, ?_⟩ <;>
  · simp only [denorm_batch1_eq]
    simp only [putText, rgb2bgr, clamp3, scaleShift3, zeroChan, maskDot,
      clampQ, textColor]
    norm_num [meanL, stdL, min_def, max_def]

/-- C1 (amended): every value of the pixel array returned by `annotate_image`
lies in `[0, 255]`; at pixels with zero text coverage the values lie in
`[0, 1]`. -/
theorem annotate_values_in_0_255 (table : List String) (mask : ℕ → ℕ → ℚ)
    (imageB : Chan3) (c : ℤ) (r : ImgHWC)
    (hmask : ∀ i j, 0 ≤ mask i j ∧ mask i j ≤ 1)
    (hr : annotate_image table mask imageB c = Except.ok r) :
    ∀ i j ch, (0 ≤ r i j ch ∧ r i j ch ≤ 255) ∧
      (mask i j = 0 → r i j ch ≤ 1) := by
  rw [annotate_image_eq] at hr
  rcases hpy : pyGetItem table c with m | v
  · rw [hpy] at hr; cases hr
  · rw [hpy] at hr
    simp only [Except.map, denorm_batch1_eq] at hr
    have hr2 := (Except.ok.injEq _ _).mp hr
    subst hr2
    intro i j ch
    exact putText_bounds mask _ i j ch (hmask i j)
      (rgb2bgr_clamp_bounds (scaleShift3 (stdL.getD 0 0) (meanL.getD 0 0)
        imageB) i j ch)

/-- C1, witness for the amended theorem: on the concrete input of the
counterexample, the returned array's value at the text pixel lies in
`[0, 255]` and the value at an uncovered pixel lies below 1. -/
theorem annotate_values_in_0_255_witness :
    (0 ≤ annotExample 20 10 2 ∧ annotExample 20 10 2 ≤ 255) ∧
      annotExample 0 0 2 ≤ 1 := by
  have hmask : ∀ i j, 0 ≤ maskDot i j ∧ maskDot i j ≤ 1 := by
    intro i j
    unfold maskDot
    split <;> norm_num
  have hok : annotate_image ["x"] maskDot zeroChan 0 =
      Except.ok annotExample := rfl
  exact ⟨(annotate_values_in_0_255 ["x"] maskDot zeroChan 0 annotExample
      hmask hok 20 10 2).1,
    (annotate_values_in_0_255 ["x"] maskDot zeroChan 0 annotExample
      hmask hok 0 0 2).2 rfl⟩

/-- C3: the code's denormalization inside `annotate_image` runs BEFORE the
batch dimension is dropped, so Python's `zip` pairs the single batch slice
with `mean[0]`, `std[0]` and transforms every channel by
`value * std[0] + mean[0]`.  On the zero input tensor the returned pixel at
channel 1 (green, unchanged by the RGB→BGR swap) equals
`0 * std[0] + mean[0] = 0.485`, whereas the claimed per-channel formula gives
`0 * std[1] + mean[1] = 0.456 ≠ 0.485`. -/
theorem denormalize_batchdim_misaligns_channels :
    ∃ r, annotate_image ["x"] (fun _ _ => 0) zeroChan 0 = Except.ok r ∧
      r 0 0 1 = 0 * stdL.getD 0 0 + meanL.getD 0 0 ∧
      0 * stdL.getD 1 0 + meanL.getD 1 0 ≠ 0 * stdL.getD 0 0 + meanL.getD 0 0 := by
  refine ⟨_, rfl, ?_, ?_⟩
  · simp only [denorm_batch1_eq]
    simp only [putText, rgb2bgr, clamp3, scaleShift3, zeroChan, clampQ,
      textColor]
    norm_num [meanL, stdL, min_def, max_def]
  · norm_num [meanL, stdL]

/-- C4, counterexample: the class id `-1` lies outside `[0, len)`, yet
`annotate_image` over a one-entry class table succeeds on it — Python list
indexing accepts negative indices down to `-len`, so no out-of-range error is
raised. -/
theorem annotate_accepts_negative_index :
    (-1 : ℤ) < 0 ∧
      ∃ r, annotate_image ["x"] (fun _ _ => 0) zeroChan (-1) = Except.ok r := by
  exact ⟨by norm_num, ⟨_, rfl⟩⟩

/-- C4 (amended): `annotate_image` raises an out-of-range error exactly for
class ids `c` with `c < -len(class_names)` or `c ≥ len(class_names)`; for all
other ids (including the Python-negative ones in `[-len, 0)`) it succeeds,
returning a pixel array over the same spatial index domain as the input. -/
theorem annotate_error_iff_outside_python_range (table : List String)
    (mask : ℕ → ℕ → ℚ) (imageB : Chan3) (c : ℤ) :
    (∃ m, annotate_image table mask imageB c = Except.error m) ↔
      (c < -(table.length : ℤ) ∨ (table.length : ℤ) ≤ c) := by
  rw [← pyGetItem_error_iff (l := table) (i := c), annotate_image_eq]
  rcases hpy : pyGetItem table c with m | v
  · constructor
    · intro _; exact ⟨m, rfl⟩
    · intro _; exact ⟨m, rfl⟩
  · constructor
    · rintro ⟨m, hm⟩; cases hm
    · rintro ⟨m, hm⟩; cases hm

/-- C2: for any `3×H×W` tensor `x` with values in `[0, 1]`,
`denormalize(normalize(x))` equals `clamp(x, 0, 1)` — and hence `x` itself —
exactly (the embedding is exact rational arithmetic): on a channel-first
tensor the `zip` of `denormalize` pairs channel `c` with `mean[c]`, `std[c]`,
inverting the per-channel normalization, and the final clamp is the identity
on `[0, 1]` values. -/
theorem denormalize_normalize_roundtrip (t : Chan3)
    (H : ∀ (c : Fin 3) (i j : ℕ), 0 ≤ t c i j ∧ t c i j ≤ 1) :
    denormalize scaleShift2 clamp2 (chanListOf (tNormalize meanV stdV t)) =
      chanListOf (fun c i j => clampQ (t c i j)) ∧
    denormalize scaleShift2 clamp2 (chanListOf (tNormalize meanV stdV t)) =
      chanListOf t := by
  have hinv : ∀ (c : Fin 3) (i j : ℕ),
      clampQ ((t c i j - meanV c) / stdV c * stdV c + meanV c) =
        clampQ (t c i j) := by
    intro c i j
    have hs : stdV c ≠ 0 := by fin_cases c <;> norm_num [stdV]
    rw [div_mul_cancel₀ _ hs, sub_add_cancel]
  have reduce : denormalize scaleShift2 clamp2
      (chanListOf (tNormalize meanV stdV t)) =
      [fun i j => clampQ ((t 0 i j - meanV 0) / stdV 0 * stdV 0 + meanV 0),
       fun i j => clampQ ((t 1 i j - meanV 1) / stdV 1 * stdV 1 + meanV 1),
       fun i j => clampQ ((t 2 i j - meanV 2) / stdV 2 * stdV 2 + meanV 2)] :=
    rfl
  have e0 : (fun i j => clampQ ((t 0 i j - meanV 0) / stdV 0 * stdV 0 + meanV 0))
      = fun i j => clampQ (t 0 i j) := by
    funext i j; exact hinv 0 i j
  have e1 : (fun i j => clampQ ((t 1 i j - meanV 1) / stdV 1 * stdV 1 + meanV 1))
      = fun i j => clampQ (t 1 i j) := by
    funext i j; exact hinv 1 i j
  have e2 : (fun i j => clampQ ((t 2 i j - meanV 2) / stdV 2 * stdV 2 + meanV 2))
      = fun i j => clampQ (t 2 i j) := by
    funext i j; exact hinv 2 i j
  have h1 : denormalize scaleShift2 clamp2
      (chanListOf (tNormalize meanV stdV t)) =
      chanListOf (fun c i j => clampQ (t c i j)) := by
    rw [reduce, e0, e1, e2]; rfl
  have hclamp : (fun c i j => clampQ (t c i j)) = t := by
    funext c i j
    exact clampQ_eq_self (H c i j).1 (H c i j).2
  exact ⟨h1, by rw [h1, hclamp]⟩

/-- C2, witness: the round trip evaluated at the constant-`1/2` tensor: the
denormalized renormalization equals both the clamped tensor and the tensor
itself. -/
theorem denormalize_normalize_roundtrip_witness :
    denormalize scaleShift2 clamp2 (chanListOf (tNormalize meanV stdV halfT)) =
      chanListOf (fun c i j => clampQ (halfT c i j)) ∧
    denormalize scaleShift2 clamp2 (chanListOf (tNormalize meanV stdV halfT)) =
      chanListOf halfT :=
  denormalize_normalize_roundtrip halfT (by intro c i j; norm_num [halfT])

/-- The transform pipeline in closed form: the output pixel `(c, i, j)` reads
the source image at the centre-crop offset composed with the (independent,
non-aspect-preserving) resize scaling of each spatial coordinate, scales the
`uint8` intensity into `[0, 1]` by `/255`, and then normalizes per channel. -/
theorem transform_pixel_form (s h w : ℕ) (img : RawImg) (c : Fin 3)
    (i j : Fin 224) :
    get_test_transform s h w img c i j =
      ((img (((s - 224) / 2 + (i : ℕ)) * h / s)
            (((s - 224) / 2 + (j : ℕ)) * w / s) c : ℚ) / 255 - meanV c) /
        stdV c := rfl

/-- Monotonicity of the per-channel normalization in the pixel value. -/
theorem normalized_range (m s q : ℚ) (hs : 0 < s) (h0 : 0 ≤ q) (h1 : q ≤ 1) :
    (0 - m) / s ≤ (q - m) / s ∧ (q - m) / s ≤ (1 - m) / s := by
  constructor <;> exact (div_le_div_iff_of_pos_right hs).mpr (by linarith)

/-- C5: with the driver's resize dimension `IMAGE_RESIZE = 256`, the transform
of any valid (`uint8`, so pixel values below 256) image is a tensor of shape
`3×224×224` (the `Fin`-typed index domain of `get_test_transform`) whose every
value is an exact rational (hence finite) lying in
`[(0 - mean[c]) / std[c], (1 - mean[c]) / std[c]]` for its channel `c`. -/
theorem transform_shape_and_range (h w : ℕ) (img : RawImg)
    (Himg : ∀ (i j : ℕ) (c : Fin 3), img i j c < 256) :
    ∀ (c : Fin 3) (i j : Fin 224),
      (0 - meanV c) / stdV c ≤ get_test_transform IMAGE_RESIZE h w img c i j ∧
        get_test_transform IMAGE_RESIZE h w img c i j ≤
          (1 - meanV c) / stdV c := by
  intro c i j
  have hs : 0 < stdV c := by fin_cases c <;> norm_num [stdV]
  rw [transform_pixel_form]
  have hb := Himg (((IMAGE_RESIZE - 224) / 2 + (i : ℕ)) * h / IMAGE_RESIZE)
    (((IMAGE_RESIZE - 224) / 2 + (j : ℕ)) * w / IMAGE_RESIZE) c
  set pix : ℕ := img (((IMAGE_RESIZE - 224) / 2 + (i : ℕ)) * h / IMAGE_RESIZE)
    (((IMAGE_RESIZE - 224) / 2 + (j : ℕ)) * w / IMAGE_RESIZE) c with hpix
  have h0 : 0 ≤ (pix : ℚ) / 255 := by positivity
  have h1 : (pix : ℚ) / 255 ≤ 1 := by
    rw [div_le_one (by norm_num)]
    exact_mod_cast Nat.le_of_lt_succ hb
  exact normalized_range (meanV c) (stdV c) _ hs h0 h1

/-- C5, witness: the bounds evaluated on the all-zero 10×10 image at channel 0
and output pixel `(0, 0)`. -/
theorem transform_shape_and_range_witness :
    (0 - meanV 0) / stdV 0 ≤
      get_test_transform IMAGE_RESIZE 10 10 (fun _ _ _ => 0) 0 0 0 ∧
    get_test_transform IMAGE_RESIZE 10 10 (fun _ _ _ => 0) 0 0 0 ≤
      (1 - meanV 0) / stdV 0 :=
  transform_shape_and_range 10 10 (fun _ _ _ => 0)
    (by intro i j c; norm_num) 0 0 0

/-- C6: the transform's output is exactly the composition, in order, of
(1) exact non-aspect-preserving resize of both spatial dimensions to
`image_size × image_size` (each coordinate scaled independently by its own
source dimension), (2) centre-crop to 224×224 (offset `(s - 224) / 2` applied
to the RESIZED coordinates), (3) scaling of the `uint8` intensity into `[0,1]`
by `/255`, and then (4) per-channel normalization `(value - mean[c]) / std[c]`
with mean `[0.485, 0.456, 0.406]` and std `[0.229, 0.224, 0.225]` in RGB
order, as the closed pointwise formula shows. -/
theorem transform_steps_formula :
    (∀ (s h w : ℕ) (img : RawImg) (c : Fin 3) (i j : Fin 224),
      get_test_transform s h w img c i j =
        ((img (((s - 224) / 2 + (i : ℕ)) * h / s)
              (((s - 224) / 2 + (j : ℕ)) * w / s) c : ℚ) / 255 - meanV c) /
          stdV c) ∧
      meanV 0 = 0.485 ∧ meanV 1 = 0.456 ∧ meanV 2 = 0.406 ∧
      stdV 0 = 0.229 ∧ stdV 1 = 0.224 ∧ stdV 2 = 0.225 :=
  ⟨fun _ _ _ _ _ _ _ => rfl, rfl, rfl, rfl, rfl, rfl, rfl⟩

/-- The first-maximum scan is invariant under any map `f` that preserves the
strict order of the values involved (scanned values and accumulator). -/
theorem argmaxAux_map (f : ℚ → ℚ) :
    ∀ (rest : List ℚ) (i bi : ℕ) (bv : ℚ),
      (∀ x, (x ∈ rest ∨ x = bv) → ∀ y, (y ∈ rest ∨ y = bv) →
        (x < y ↔ f x < f y)) →
      argmaxAux (rest.map f) i bi (f bv) = argmaxAux rest i bi bv := by
  intro rest
  induction rest with
  | nil => intro i bi bv H; rfl
  | cons v rest ih =>
    intro i bi bv H
    simp only [List.map_cons]
    unfold argmaxAux
    have hiff : bv < v ↔ f bv < f v :=
      H bv (Or.inr rfl) v (Or.inl (List.mem_cons_self v rest))
    by_cases hb : bv < v
    · rw [if_pos (hiff.mp hb), if_pos hb]
      apply ih
      intro x hx y hy
      refine H x ?_ y ?_
      · rcases hx with hx | hx
        · exact Or.inl (List.mem_cons_of_mem v hx)
        · exact Or.inl (hx ▸ List.mem_cons_self v rest)
      · rcases hy with hy | hy
        · exact Or.inl (List.mem_cons_of_mem v hy)
        · exact Or.inl (hy ▸ List.mem_cons_self v rest)
    · rw [if_neg (fun hc => hb (hiff.mpr hc)), if_neg hb]
      apply ih
      intro x hx y hy
      refine H x ?_ y ?_
      · rcases hx with hx | hx
        · exact Or.inl (List.mem_cons_of_mem v hx)
        · exact Or.inr hx
      · rcases hy with hy | hy
        · exact Or.inl (List.mem_cons_of_mem v hy)
        · exact Or.inr hy

/-- Function `np.argmax` is invariant under any map that preserves the strict order of
the list's values. -/
theorem npArgmaxList_map (f : ℚ → ℚ) (l : List ℚ)
    (H : ∀ x ∈ l, ∀ y ∈ l, (x < y ↔ f x < f y)) :
    npArgmaxList (l.map f) = npArgmaxList l := by
  cases l with
  | nil => rfl
  | cons v rest =>
    simp only [List.map_cons]
    unfold npArgmaxList
    apply argmaxAux_map
    intro x hx y hy
    refine H x ?_ y ?_
    · rcases hx with hx | hx
      · exact List.mem_cons_of_mem v hx
      · exact hx ▸ List.mem_cons_self v rest
    · rcases hy with hy | hy
      · exact List.mem_cons_of_mem v hy
      · exact hy ▸ List.mem_cons_self v rest

/-- Flattening a `1×n` matrix row-major yields exactly its single row. -/
theorem flattenRows_eq {n : ℕ} (p : Fin 1 → Fin n → ℚ) :
    flattenRows p = (List.finRange n).map (p 0) := by
  have h1 : List.finRange 1 = [0] := rfl
  simp [flattenRows, h1]

/-- For a size-1 batch, numpy's flattened arg-max coincides with the arg-max
along the class dimension. -/
theorem npArgmaxFlat_eq_argmaxDim1 {n : ℕ} (p : Fin 1 → Fin n → ℚ) :
    npArgmaxFlat p = argmaxDim1 p := by
  unfold npArgmaxFlat argmaxDim1
  rw [flattenRows_eq]

/-- C7: for every size-1 batch input, `inference` computes its predicted class
id as the arg-max (along the class dimension) of the softmax of the model's
raw output scores, and delegates to `annotate_image` with the pre-softmax
input image tensor and that class id.  (The code takes `np.argmax` of the
flattened `1×n` probability matrix, which for a unit batch is the
class-dimension arg-max.) -/
theorem inference_delegates_softmax_argmax {n : ℕ} (table : List String)
    (mask : ℕ → ℕ → ℚ) (e : ℚ → ℚ) (model : Chan3 → Fin 1 → Fin n → ℚ)
    (image : Chan3) :
    inference table mask e model image =
      annotate_image table mask image
        ((argmaxDim1 (softmax1 e (model image)) : ℕ) : ℤ) := by
  unfold inference
  simp only []
  rw [npArgmaxFlat_eq_argmaxDim1]

/-- C10: for every size-1 batch of raw scores, the predicted class id the code
computes — `np.argmax` of the FLATTENED softmax probability matrix — equals
the arg-max of the raw pre-softmax scores along the class dimension: softmax
is strictly order-preserving (for any exponential map `e` that is strictly
monotone and positive on the scores, as the real `exp` is), and for a unit
batch the flattened arg-max coincides with the class-dimension arg-max. -/
theorem flat_argmax_softmax_eq_argmax_scores {n : ℕ} (e : ℚ → ℚ)
    (p : Fin 1 → Fin n → ℚ) (hn : 0 < n)
    (He : ∀ i j : Fin n, p 0 i < p 0 j → e (p 0 i) < e (p 0 j))
    (Hpos : ∀ i : Fin n, 0 < e (p 0 i)) :
    npArgmaxFlat (softmax1 e p) = argmaxDim1 p := by
  rw [npArgmaxFlat_eq_argmaxDim1]
  unfold argmaxDim1
  have hne : Nonempty (Fin n) := ⟨⟨0, hn⟩⟩
  have hS : 0 < ∑ j, e (p 0 j) :=
    Finset.sum_pos (fun j _ => Hpos j) Finset.univ_nonempty
  have hmap : (List.finRange n).map (softmax1 e p 0) =
      ((List.finRange n).map (p 0)).map (fun x => e x / ∑ j, e (p 0 j)) := by
    rw [List.map_map]
    rfl
  rw [hmap]
  apply npArgmaxList_map
  intro x hx y hy
  obtain ⟨i, _, rfl⟩ := List.mem_map.mp hx
  obtain ⟨j, _, rfl⟩ := List.mem_map.mp hy
  rw [div_lt_div_iff_of_pos_right hS]
  constructor
  · exact He i j
  · intro hlt
    rcases lt_trichotomy (p 0 i) (p 0 j) with h | h | h
    · exact h
    · rw [h] at hlt
      exact absurd hlt (lt_irrefl _)
    · exact absurd hlt (not_lt.mpr (le_of_lt (He j i h)))

/-- C10, witness: the identity evaluated at the concrete score row `(1, 5, 2)`
with the monotone positive map `x ↦ x + 10` standing in for the exponential. -/
theorem flat_argmax_softmax_eq_argmax_scores_witness :
    npArgmaxFlat (softmax1 expW scoresW) = argmaxDim1 scoresW :=
  flat_argmax_softmax_eq_argmax_scores expW scoresW (by norm_num)
    (by intro i j h; unfold expW; linarith)
    (by intro i; unfold expW scoresW; fin_cases i <;> norm_num)

/-- C8: the driver run on an input directory with zero `*.jpg` files performs
no inference calls, creates the output directory, writes no output files, and
terminates normally (the empty glob is silently accepted; `runDriver` is a
total function). -/
theorem driver_empty_glob (files : List String)
    (hnone : ∀ f ∈ files, matchesJpg f = false) :
    runDriver files =
      { outputDirCreated := true, inferenceCalls := 0, writtenFiles := [] } := by
  have hglob : globJpg files = [] := by
    unfold globJpg
    rw [List.filter_eq_nil_iff]
    intro a ha
    simp [hnone a ha]
  unfold runDriver
  simp only [hglob]
  rfl

/-- C8, witness: the driver run on a directory holding only `reps.png` and
`notes.txt` creates the output directory and does nothing else. -/
theorem driver_empty_glob_witness :
    runDriver ["reps.png", "notes.txt"] =
      { outputDirCreated := true, inferenceCalls := 0, writtenFiles := [] } :=
  driver_empty_glob ["reps.png", "notes.txt"] (by
    intro f hf
    simp only [List.mem_cons, List.not_mem_nil, or_false] at hf
    rcases hf with rfl | rfl <;> rfl)

/-- C9: the embedded inference path is a pure function of the model (weights),
the input image and the softmax exponential — it contains no randomness — so
two runs over equal inputs on the same device produce identical predicted
class ids. -/
theorem inference_deterministic {n : ℕ} (e₁ e₂ : ℚ → ℚ)
    (model₁ model₂ : Chan3 → Fin 1 → Fin n → ℚ) (img₁ img₂ : Chan3)
    (he : e₁ = e₂) (hm : model₁ = model₂) (hi : img₁ = img₂) :
    predicted_class e₁ model₁ img₁ = predicted_class e₂ model₂ img₂ := by
  rw [he, hm, hi]

/-- C9, witness: two runs on the concrete constant model and zero image agree. -/
theorem inference_deterministic_witness :
    predicted_class expW modelW zeroChan = predicted_class expW modelW zeroChan :=
  inference_deterministic expW expW modelW modelW zeroChan zeroChan rfl rfl rfl

end ExerciseRecognizer
